import Mathlib

/-!
# Verification of the PPTX feature-extraction pipeline (`slide_extractor.py`)

This file is a shallow embedding of the extraction core of
`slide_extractor.py` (class `PPTXFeatureExtractor`), together with proofs
that settle the specification claims about it.

Conventions of the embedding:
* Python integers are `Int`/`Nat`; the exact rational arithmetic of the
  normalization code is modelled over `ℚ` (the source divides Python ints,
  producing floats that are then formatted; the `%.6f` decimal emission is
  modelled as exact rounding to six decimal places, `round6`).
* XML element trees read by the extractor are modelled as inductive types
  holding exactly the children/attributes the extractor queries.
* `try/except`-guarded lookups returning `None` on failure are `Option`.
* Output XML fragments are modelled as structures holding the fields the
  extractor writes.
-/

/-- Python `abs` on the rationals used by the statistics code. -/
def pyAbs (q : ℚ) : ℚ := if q < 0 then -q else q

/-- Model of emitting a rational with `"%.6f"` formatting: round to the
nearest multiple of `10⁻⁶` (half rounds up). `slide_extractor.py` lines
791-800 format `x / slide_width` and friends with `:.6f`. -/
def round6 (q : ℚ) : ℚ := ((⌊q * 1000000 + 1/2⌋ : ℤ) : ℚ) / 1000000

/-- One normalized coordinate as emitted by `extract_geometry`
(`slide_extractor.py` lines 786-800): the raw EMU value divided by the
canvas dimension, written at six decimal places. -/
def normCoord (raw canvas : ℤ) : ℚ := round6 ((raw : ℚ) / (canvas : ℚ))

/-- ASCII upper-casing of one character, as Python `str.upper` acts on the
ASCII hex digits and names handled by `extract_color_value`. -/
def upperChar (c : Char) : Char :=
  match c with
  | 'a' => 'A' | 'b' => 'B' | 'c' => 'C' | 'd' => 'D' | 'e' => 'E'
  | 'f' => 'F' | 'g' => 'G' | 'h' => 'H' | 'i' => 'I' | 'j' => 'J'
  | 'k' => 'K' | 'l' => 'L' | 'm' => 'M' | 'n' => 'N' | 'o' => 'O'
  | 'p' => 'P' | 'q' => 'Q' | 'r' => 'R' | 's' => 'S' | 't' => 'T'
  | 'u' => 'U' | 'v' => 'V' | 'w' => 'W' | 'x' => 'X' | 'y' => 'Y'
  | 'z' => 'Z' | other => other

/-- Python `str.upper` (restricted to ASCII, which covers the attribute
values the extractor upper-cases). -/
def pyUpper (s : String) : String := String.mk (s.data.map upperChar)

/-- Python `str.startswith`, as a code-point prefix test. -/
def pyStartsWith (s pre : String) : Bool := pre.data.isPrefixOf s.data

/-- Python `str.endswith`, as a code-point suffix test. -/
def pyEndsWith (s suf : String) : Bool := suf.data.isSuffixOf s.data

/-- Python slice `s[a:b]` for `0 ≤ a ≤ b`, on code points. -/
def pySlice (s : String) (a b : Nat) : List Char := (s.data.drop a).take (b - a)

/-- The ASCII whitespace characters stripped by Python `int`. -/
def isPySpace (c : Char) : Bool :=
  c = ' ' || c = '\t' || c = '\n' || c = '\x0d' || c = '\x0b' || c = '\x0c'

/-- The hexadecimal digit characters and their values. -/
def hexDigits : List (Char × Nat) :=
  [('0', 0), ('1', 1), ('2', 2), ('3', 3), ('4', 4), ('5', 5), ('6', 6),
   ('7', 7), ('8', 8), ('9', 9), ('a', 10), ('b', 11), ('c', 12), ('d', 13),
   ('e', 14), ('f', 15), ('A', 10), ('B', 11), ('C', 12), ('D', 13),
   ('E', 14), ('F', 15)]

/-- Value of one hexadecimal digit, if the character is one. -/
def hexDigitVal (c : Char) : Option Nat :=
  (hexDigits.find? (fun p => p.1 = c)).map (fun p => p.2)

/-- Hex digit sequence after its first digit: single underscores are
allowed between digits (CPython numeric literal rule); the flag records
whether the previous character was an underscore (which must be followed
by a digit and cannot end the sequence). -/
def parseDigitsAux : Bool → List Char → Nat → Option Nat
  | underscore, [], acc => if underscore then none else some acc
  | underscore, c :: rest, acc =>
    if c = '_' then
      if underscore then none else parseDigitsAux true rest acc
    else
      match hexDigitVal c with
      | some d => parseDigitsAux false rest (acc * 16 + d)
      | none => none

/-- A nonempty hex digit sequence (with embedded single underscores). -/
def parseDigits : List Char → Option Nat
  | [] => none
  | c :: rest =>
    match hexDigitVal c with
    | some d => parseDigitsAux false rest d
    | none => none

/-- Strip leading and trailing Python whitespace from a character list. -/
def stripSpaces (l : List Char) : List Char :=
  ((l.dropWhile isPySpace).reverse.dropWhile isPySpace).reverse

/-- After the optional sign: an optional `0x`/`0X` prefix (possibly followed
by one underscore) and then the digits. -/
def parseHexBody : List Char → Option Nat
  | [] => parseDigits []
  | [c] => parseDigits [c]
  | [c0, x] =>
    if c0 = '0' && (x = 'x' || x = 'X') then parseDigits []
    else parseDigits [c0, x]
  | c0 :: x :: c :: rest2 =>
    if c0 = '0' && (x = 'x' || x = 'X') then
      if c = '_' then parseDigits rest2 else parseDigits (c :: rest2)
    else parseDigits (c0 :: x :: c :: rest2)

/-- The sign step of CPython `int(s, 16)` on the whitespace-stripped
character list: an optional single `+`/`-` followed by the body. -/
def pyIntHexCore : List Char → Option Int
  | [] => (parseHexBody []).map (fun v : Nat => (v : Int))
  | c :: rest =>
    if c = '+' then (parseHexBody rest).map (fun v : Nat => (v : Int))
    else if c = '-' then (parseHexBody rest).map (fun v : Nat => -(v : Int))
    else (parseHexBody (c :: rest)).map (fun v : Nat => (v : Int))

/-- CPython `int(s, 16)` on ASCII strings: optional surrounding whitespace,
optional sign, optional `0x` prefix, then hex digits with single embedded
underscores; `none` models the `ValueError` the source catches. -/
def pyIntHex (s : String) : Option Int := pyIntHexCore (stripSpaces s.data)

/-- The `#`-stripping first step of `hex_to_rgb` (line 1369-1370). -/
def pyStripHash (s : String) : String :=
  if pyStartsWith s "#" then String.mk (s.data.drop 1) else s

/-- `hex_to_rgb` (`slide_extractor.py` lines 1367-1379): strip one leading
`#`, send `scheme:`/`preset:` references to mid-gray, otherwise parse the
first three two-character slices as hex with Python `int(.., 16)`, falling
back to mid-gray if any slice fails to parse. -/
def hexToRgb (s : String) : Int × Int × Int :=
  let h := pyStripHash s
  if pyStartsWith h "scheme:" || pyStartsWith h "preset:" then (128, 128, 128)
  else
    match pyIntHex (String.mk (pySlice h 0 2)), pyIntHex (String.mk (pySlice h 2 4)),
        pyIntHex (String.mk (pySlice h 4 6)) with
    | some r, some g, some b => (r, g, b)
    | _, _, _ => (128, 128, 128)

/-- A color node as queried by `extract_color_value`: each field is the
result of the corresponding descendant search (`a:srgbClr`, `a:schemeClr`,
`a:sysClr`, `a:prstClr`); the inner `Option` is the attribute
(`val` / `lastClr`), which may be absent on a present element. -/
structure ColorNode where
  srgb : Option (Option String)
  scheme : Option (Option String)
  sys : Option (Option String)
  prst : Option (Option String)

/-- The preset-color tail of `extract_color_value` (lines 1054-1059). -/
def prstBranch (n : ColorNode) : Option String :=
  match n.prst with
  | some v => some ("preset:" ++ v.getD "black")
  | none => none

/-- `extract_color_value` (`slide_extractor.py` lines 1033-1059).
An `a:sysClr` whose `lastClr` attribute is absent or empty falls through
to the preset check (Python truthiness of `last_clr`). -/
def extractColorValue (n : ColorNode) : Option String :=
  match n.srgb with
  | some v => some ("#" ++ pyUpper (v.getD "FFFFFF"))
  | none =>
    match n.scheme with
    | some v => some ("scheme:" ++ v.getD "dk1")
    | none =>
      match n.sys with
      | some (some c) => if c = "" then prstBranch n else some ("#" ++ pyUpper c)
      | _ => prstBranch n

/-- An `a:xfrm` transform node: `a:off` (with `x`/`y` attributes, default
`0`), `a:ext` (with `cx`/`cy`, default `0`), attributes `rot` (default
`'0'`), `flipH`, `flipV` (compared against `'1'`). -/
structure Xfrm where
  off : Option (Int × Int)
  ext : Option (Int × Int)
  rot : Int
  flipH : Bool
  flipV : Bool
deriving DecidableEq

/-- A `p:cNvPr` naming node with its optional attributes. -/
structure CNvPr where
  id : Option String
  name : Option String
  descr : Option String
deriving DecidableEq

/-- A `p:nvSpPr` node: its optional `p:cNvPr` child and optional `p:ph`
placeholder (type and idx attributes). -/
structure SpNv where
  cNvPr : Option CNvPr
  ph : Option (Option String × Option String)
deriving DecidableEq

/-- The parts of a `p:sp` shape the extractor queries. -/
structure SpData where
  nv : Option SpNv
  xfrm : Option Xfrm
deriving DecidableEq

/-- The parts of a `p:pic` picture the extractor queries. -/
structure PicData where
  nv : Option CNvPr
  xfrm : Option Xfrm
deriving DecidableEq

/-- What `extract_graphic_frame` dispatches on: a descendant `c:chart`,
else a descendant `a:tbl`, else SmartArt/other. -/
inductive FrameContent where
  | chart
  | table
  | other
deriving DecidableEq

/-- One node of a slide's `p:spTree` content: shapes, pictures, graphic
frames and groups; only groups have element children. -/
inductive SrcNode where
  | sp (d : SpData)
  | pic (d : PicData)
  | frame (content : FrameContent) (aXfrm : Option Xfrm)
  | grp (xfrm : Option Xfrm) (children : List SrcNode)

mutual

/-- `findall('.//p:sp')` from one node: document-order descendant shapes. -/
def nodeSps : SrcNode → List SpData
  | .sp d => [d]
  | .pic _ => []
  | .frame _ _ => []
  | .grp _ cs => listSps cs

/-- `findall('.//p:sp')` over a forest, in document order. -/
def listSps : List SrcNode → List SpData
  | [] => []
  | c :: cs => nodeSps c ++ listSps cs

end

mutual

/-- `findall('.//p:pic')` from one node. -/
def nodePics : SrcNode → List PicData
  | .sp _ => []
  | .pic d => [d]
  | .frame _ _ => []
  | .grp _ cs => listPics cs

/-- `findall('.//p:pic')` over a forest, in document order. -/
def listPics : List SrcNode → List PicData
  | [] => []
  | c :: cs => nodePics c ++ listPics cs

end

mutual

/-- `findall('.//p:graphicFrame')` from one node. -/
def nodeFrames : SrcNode → List (FrameContent × Option Xfrm)
  | .sp _ => []
  | .pic _ => []
  | .frame f x => [(f, x)]
  | .grp _ cs => listFrames cs

/-- `findall('.//p:graphicFrame')` over a forest, in document order. -/
def listFrames : List SrcNode → List (FrameContent × Option Xfrm)
  | [] => []
  | c :: cs => nodeFrames c ++ listFrames cs

end

mutual

/-- `findall('.//p:grpSp')` from one node: the group itself (if any),
followed by nested groups, in document order. -/
def nodeGrps : SrcNode → List (Option Xfrm × List SrcNode)
  | .sp _ => []
  | .pic _ => []
  | .frame _ _ => []
  | .grp x cs => (x, cs) :: listGrps cs

/-- `findall('.//p:grpSp')` over a forest, in document order. -/
def listGrps : List SrcNode → List (Option Xfrm × List SrcNode)
  | [] => []
  | c :: cs => nodeGrps c ++ listGrps cs

end

/-- Number of descendant `c:chart` elements (each chart graphic frame
holds exactly one), as counted by `infer_slide_role`. -/
def countCharts (cs : List SrcNode) : Nat :=
  (listFrames cs).countP (fun f => f.1 = FrameContent.chart)

/-- Number of descendant `a:tbl` elements, as counted by
`infer_slide_role`. -/
def countTables (cs : List SrcNode) : Nat :=
  (listFrames cs).countP (fun f => f.1 = FrameContent.table)

/-- Number of descendant `p:pic` elements, as counted by
`infer_slide_role`. -/
def countPicsIn (cs : List SrcNode) : Nat := (listPics cs).length

/-- The `type` attribute written on an output `element`. -/
inductive ElemType where
  | textbox
  | picture
  | chart
  | table
  | graphic
  | group
deriving DecidableEq

/-- An output `geometry` fragment: the normalized values written by
`extract_geometry` (`x`/`y` present exactly when `a:off` is, `width`/
`height` exactly when `a:ext` is). -/
structure GeometryOut where
  x : Option ℚ
  y : Option ℚ
  w : Option ℚ
  h : Option ℚ
  rot : ℚ
  flipH : Bool
  flipV : Bool
deriving DecidableEq

/-- An output `element` fragment, restricted to the fields the verified
claims concern: `id` and `z_order` attributes, type tag, `geometry` child,
`placeholder` child (shapes), and `children` (groups). Fill, stroke, text
body, media and accessibility sub-records are not modelled. -/
inductive ElementOut where
  | mk (id : Option String) (etype : ElemType) (zOrder : Nat)
      (geom : Option GeometryOut) (ph : Option (String × String))
      (children : List ElementOut)

/-- The `id` attribute of an output element. -/
def ElementOut.eid : ElementOut → Option String
  | .mk i _ _ _ _ _ => i

/-- The `type` attribute of an output element. -/
def ElementOut.etype : ElementOut → ElemType
  | .mk _ t _ _ _ _ => t

/-- The `z_order` attribute of an output element. -/
def ElementOut.zOrder : ElementOut → Nat
  | .mk _ _ z _ _ _ => z

/-- The `geometry` child of an output element. -/
def ElementOut.geom : ElementOut → Option GeometryOut
  | .mk _ _ _ g _ _ => g

/-- The `children` of an output group element. -/
def ElementOut.children : ElementOut → List ElementOut
  | .mk _ _ _ _ _ cs => cs

/-- `extract_geometry` (`slide_extractor.py` lines 768-812) for canvas
dimensions `cw × ch`: normalized offsets/extents at six decimals, rotation
divided by `60000`, flip flags. -/
def extractGeometry (cw ch : ℤ) (t : Xfrm) : GeometryOut :=
  { x := t.off.map (fun o => normCoord o.1 cw)
    y := t.off.map (fun o => normCoord o.2 ch)
    w := t.ext.map (fun e => normCoord e.1 cw)
    h := t.ext.map (fun e => normCoord e.2 ch)
    rot := (t.rot : ℚ) / 60000
    flipH := t.flipH
    flipV := t.flipV }

/-- `extract_shape_element` (lines 539-584): drops the shape (returns
`none`) exactly when `p:nvSpPr` is absent; the `id` attribute falls back
to the current z-order. -/
def extractShapeElement (cw ch : ℤ) (s : SpData) (z : Nat) : Option ElementOut :=
  match s.nv with
  | none => none
  | some nv =>
    let shapeId := match nv.cNvPr with
      | some c => c.id.getD (toString z)
      | none => toString z
    some (.mk (some shapeId) .textbox z (s.xfrm.map (extractGeometry cw ch))
      (nv.ph.map (fun p => (p.1.getD "body", p.2.getD "0"))) [])

/-- `extract_picture_element` (lines 586-621): drops the picture exactly
when `p:nvPicPr` is absent. The media reference is not modelled. -/
def extractPictureElement (cw ch : ℤ) (p : PicData) (z : Nat) : Option ElementOut :=
  match p.nv with
  | none => none
  | some c =>
    some (.mk (some (c.id.getD (toString z))) .picture z
      (p.xfrm.map (extractGeometry cw ch)) none [])

/-- `extract_graphic_frame` (lines 623-636) together with
`extract_chart_element`/`extract_table_element`: always yields an element;
charts and tables look up a descendant `a:xfrm`, the SmartArt/other case
writes no geometry at all. Chart and table definitions are not modelled. -/
def extractGraphicFrame (cw ch : ℤ) (f : FrameContent × Option Xfrm) (z : Nat) : ElementOut :=
  match f.1 with
  | .chart => .mk none .chart z (f.2.map (extractGeometry cw ch)) none []
  | .table => .mk none .table z (f.2.map (extractGeometry cw ch)) none []
  | .other => .mk none .graphic z none none []

/-- One extraction pass of `extract_slide_elements`: walk the pass's node
list, and for each node that yields an element, append it and increment
the shared z-order counter; a node whose extractor yields `None` leaves
the counter unchanged. Returns the emitted elements and the final counter. -/
def runPass {α : Type} (items : List α) (f : α → Nat → Option ElementOut) (z : Nat) :
    List ElementOut × Nat :=
  match items with
  | [] => ([], z)
  | a :: rest =>
    match f a z with
    | some e =>
      let r := runPass rest f (z + 1)
      (e :: r.1, r.2)
    | none => runPass rest f z

/-- `extract_group_element` (lines 746-766): a group element whose
children are the shapes found by `findall('.//p:sp')` under the group,
extracted with an independent z-order counter starting at 1. -/
def extractGroupElement (cw ch : ℤ) (g : Option Xfrm × List SrcNode) (z : Nat) : ElementOut :=
  .mk none .group z (g.1.map (extractGeometry cw ch)) none
    (runPass (listSps g.2) (extractShapeElement cw ch) 1).1

/-- `extract_slide_elements` (`slide_extractor.py` lines 503-537): if the
slide has no `p:spTree` nothing is emitted; otherwise four passes — the
descendant shapes, descendant pictures, descendant graphic frames and
descendant groups of the shape tree, each pass in document order — share
one z-order counter starting at 1. -/
def extractSlideElements (cw ch : ℤ) : Option (List SrcNode) → List ElementOut
  | none => []
  | some tree =>
    let p1 := runPass (listSps tree) (extractShapeElement cw ch) 1
    let p2 := runPass (listPics tree) (extractPictureElement cw ch) p1.2
    let p3 := runPass (listFrames tree) (fun f z => some (extractGraphicFrame cw ch f z)) p2.2
    let p4 := runPass (listGrps tree) (fun g z => some (extractGroupElement cw ch g z)) p3.2
    p1.1 ++ p2.1 ++ p3.1 ++ p4.1

/-- `infer_slide_role` (`slide_extractor.py` lines 1061-1088): ordered,
first-match-wins rules over the slide index and the slide's `p:spTree`
(`none` models an absent shape tree). -/
def inferSlideRole (tree : Option (List SrcNode)) (index : Nat) : String :=
  if index = 1 then "title_slide"
  else
    match tree with
    | none => "content"
    | some cs =>
      if 0 < countCharts cs then "data_visualization"
      else if 0 < countTables cs then "table_content"
      else if 2 < countPicsIn cs then "image_gallery"
      else "content"

mutual

/-- `findall('.//element')` from one output element: the element and its
descendants, in document order. -/
def nodeElems : ElementOut → List ElementOut
  | .mk i t z g p cs => .mk i t z g p cs :: listElems cs

/-- `findall('.//element')` under an `elements` container. -/
def listElems : List ElementOut → List ElementOut
  | [] => []
  | e :: es => nodeElems e ++ listElems es

end

mutual

/-- `elem.find('.//geometry')`: the first `geometry` fragment in document
order under (and including) the element — a group without its own
geometry yields the first child geometry found. -/
def nodeFindGeom : ElementOut → Option GeometryOut
  | .mk _ _ _ g _ cs =>
    match g with
    | some geo => some geo
    | none => listFindGeom cs

/-- First `geometry` fragment in document order under a list of elements. -/
def listFindGeom : List ElementOut → Option GeometryOut
  | [] => none
  | e :: es =>
    match nodeFindGeom e with
    | some geo => some geo
    | none => listFindGeom es

end

/-- The four mass accumulators of the layout-balance loop. -/
structure BalanceAcc where
  l : ℚ
  r : ℚ
  t : ℚ
  b : ℚ

/-- One step of the layout-balance loop (`slide_extractor.py` lines
1166-1190): an element contributes its area `width*height` to the left or
right half by the strict test `x + width/2 < 0.5`, and to the top or
bottom half by `y + height/2 < 0.5`; elements without a complete geometry
contribute nothing. -/
def balanceStep (acc : BalanceAcc) (e : ElementOut) : BalanceAcc :=
  match nodeFindGeom e with
  | some g =>
    match g.x, g.y, g.w, g.h with
    | some x, some y, some w, some h =>
      let weight := w * h
      let acc1 := if x + w / 2 < 1/2 then { acc with l := acc.l + weight }
        else { acc with r := acc.r + weight }
      if y + h / 2 < 1/2 then { acc1 with t := acc1.t + weight }
      else { acc1 with b := acc1.b + weight }
    | _, _, _, _ => acc
  | none => acc

/-- The layout-balance pair of `compute_slide_features`
(`slide_extractor.py` lines 1160-1199): fold the balance step over every
element found by `findall('.//element')`, then report
`1 − |left − right| / total` and `1 − |top − bottom| / total`, each
defined as `1.0` when its total is not positive. -/
def computeBalance (es : List ElementOut) : ℚ × ℚ :=
  let acc := (listElems es).foldl balanceStep ⟨0, 0, 0, 0⟩
  let totalH := acc.l + acc.r
  let totalV := acc.t + acc.b
  (if 0 < totalH then 1 - pyAbs (acc.l - acc.r) / totalH else 1,
   if 0 < totalV then 1 - pyAbs (acc.t - acc.b) / totalV else 1)

/-- `ppt/presentation.xml` as read by `get_slide_files`: the optional
`p:sldIdLst` (with each `p:sldId`'s optional `r:id` attribute) and the
relationship manifest `ppt/_rels/presentation.xml.rels` as an ordered
`Id → Target` list (a missing or unparsable manifest behaves as an empty
list, since `get_relationship_target` swallows its errors). -/
structure PresFile where
  sldIds : Option (List (Option String))
  rels : List (String × String)

/-- The package parts relevant to slide discovery. `presentation = none`
models `ppt/presentation.xml` missing or unparsable (the `except` branch
of `get_slide_files`). -/
structure Package where
  partNames : List String
  presentation : Option PresFile

/-- `get_relationship_target` (lines 1264-1275): first manifest entry with
the matching `Id`. -/
def lookupRel (rels : List (String × String)) (rid : String) : Option String :=
  (rels.find? (fun e => e.1 = rid)).map (fun e => e.2)

/-- Python `list.sort()` on strings: stable sort by the lexicographic
code-point order. -/
def pySortStrings (l : List String) : List String :=
  l.mergeSort (fun a b => a ≤ b)

/-- `get_slide_files` (`slide_extractor.py` lines 383-405): resolve the
`p:sldIdLst` through the relationship manifest (silently skipping ids
that do not resolve); if `presentation.xml` cannot be read or parsed,
fall back to the name-sorted scan of `ppt/slides/slide*.xml` parts. A
readable presentation without a `p:sldIdLst` yields the empty list
without falling back. -/
def getSlideFiles (p : Package) : List String :=
  match p.presentation with
  | some pres =>
    match pres.sldIds with
    | some ids =>
      ids.filterMap (fun rid =>
        rid.bind (fun r => (lookupRel pres.rels r).map (fun t => "ppt/" ++ t)))
    | none => []
  | none =>
    pySortStrings (p.partNames.filter
      (fun n => pyStartsWith n "ppt/slides/slide" && pyEndsWith n ".xml"))

/-- One entry of the output `slides` section: the slide part and its
1-based index. Per-slide content is extracted by the functions above and
is not duplicated here. -/
structure SlideEntry where
  index : Nat
  file : String

/-- The output `global_statistics` fields relevant to slide counting. -/
structure GlobalStats where
  totalSlides : Nat

/-- The top-level output tree of `extract_all_features`, restricted to
the slides section and the statistics over it. -/
structure TrainingData where
  slides : List SlideEntry
  stats : GlobalStats

/-- The slide loop and statistics assembly of `extract_all_features`
(`slide_extractor.py` lines 36-73): enumerate the discovered slide parts
from 1 and append one `slide` child per part; every per-part failure is
caught inside `extract_slide_features`, so the run completes for any
package — there is no emptiness check on the slide list. -/
def extractAllFeatures (p : Package) : TrainingData :=
  let files := getSlideFiles p
  let slides := files.enum.map (fun e => { index := e.1 + 1, file := e.2 : SlideEntry })
  { slides := slides, stats := { totalSlides := slides.length } }

/-- The color filter of `compute_global_statistics` (lines 1240-1244):
keep every `color[@hex]` attribute value that is non-empty and does not
start with `scheme:` (`preset:` references pass this filter). -/
def schemeFiltered (cs : List String) : List String :=
  cs.filter (fun c => !(c = "") && !(pyStartsWith c "scheme:"))

/-- Key order of a Python `defaultdict(int)` tally: first-encounter order. -/
def dedupFirstAux (seen : List String) : List String → List String
  | [] => []
  | c :: rest =>
    if c ∈ seen then dedupFirstAux seen rest
    else c :: dedupFirstAux (seen ++ [c]) rest

/-- Distinct values of a list in first-encounter order. -/
def dedupFirst (l : List String) : List String := dedupFirstAux [] l

/-- `color_counts.items()`: each distinct literal-filtered color with its
occurrence count, in first-encounter order. -/
def countPairs (cs : List String) : List (String × Nat) :=
  (dedupFirst (schemeFiltered cs)).map (fun k => (k, (schemeFiltered cs).count k))

/-- `sorted(color_counts.items(), key=lambda x: x[1], reverse=True)`:
stable descending sort by count. -/
def sortedPairs (cs : List String) : List (String × Nat) :=
  (countPairs cs).mergeSort (fun a b => b.2 ≤ a.2)

/-- The `most_used_colors` ranking of `compute_global_statistics`
(`slide_extractor.py` lines 1239-1258): the ten most frequent filtered
colors with their counts and their percentage of all filtered
occurrences. -/
def topColors (cs : List String) : List (String × Nat × ℚ) :=
  let total := (schemeFiltered cs).length
  ((sortedPairs cs).take 10).map
    (fun p => (p.1, p.2, if 0 < total then (p.2 : ℚ) / (total : ℚ) * 100 else 0))

theorem runPass_counter {α : Type} (f : α → Nat → Option ElementOut) :
    ∀ (items : List α) (z : Nat),
    (runPass items f z).2 = z + (runPass items f z).1.length := by
  intro items
  induction items with
  | nil => intro z; simp [runPass]
  | cons a rest ih =>
    intro z
    simp only [runPass]
    cases h : f a z with
    | some e =>
      simp only [List.length_cons, ih (z + 1)]
      omega
    | none => exact ih z

theorem runPass_zOrders {α : Type} (f : α → Nat → Option ElementOut)
    (hf : ∀ a z e, f a z = some e → e.zOrder = z) :
    ∀ (items : List α) (z : Nat),
    ((runPass items f z).1).map ElementOut.zOrder
      = List.range' z (runPass items f z).1.length := by
  intro items
  induction items with
  | nil => intro z; simp [runPass]
  | cons a rest ih =>
    intro z
    simp only [runPass]
    cases h : f a z with
    | none => exact ih z
    | some e =>
      simp only [List.map_cons, List.length_cons, ih (z + 1)]
      rw [List.range'_succ, hf a z e h]

theorem runPass_mem {α : Type} (f : α → Nat → Option ElementOut)
    (P : ElementOut → Prop) (hf : ∀ a z e, f a z = some e → P e) :
    ∀ (items : List α) (z : Nat) (e : ElementOut),
    e ∈ (runPass items f z).1 → P e := by
  intro items
  induction items with
  | nil => intro z e he; simp [runPass] at he
  | cons a rest ih =>
    intro z e he
    simp only [runPass] at he
    cases h : f a z with
    | none =>
      rw [h] at he
      exact ih z e he
    | some e0 =>
      rw [h] at he
      simp only [List.mem_cons] at he
      rcases he with rfl | he
      · exact hf a z e h
      · exact ih (z + 1) e he

theorem runPass_length {α : Type} (f : α → Nat → Option ElementOut) (p : α → Bool)
    (hf : ∀ a z, (f a z).isSome = p a) :
    ∀ (items : List α) (z : Nat),
    (runPass items f z).1.length = items.countP p := by
  intro items
  induction items with
  | nil => intro z; simp [runPass]
  | cons a rest ih =>
    intro z
    simp only [runPass, List.countP_cons]
    cases h : f a z with
    | none =>
      have hp : p a = false := by
        have := hf a z
        rw [h] at this
        simpa using this.symm
      simp [hp, ih z]
    | some e =>
      have hp : p a = true := by
        have := hf a z
        rw [h] at this
        simpa using this.symm
      simp [hp, ih (z + 1)]

theorem range'_glue (s m n : ℕ) :
    List.range' s m ++ List.range' (s + m) n = List.range' s (m + n) := by
  have h := List.range'_append s m n 1
  rw [Nat.one_mul] at h
  rw [Nat.add_comm n m] at h
  exact h

/-- C2. For every slide, the z-order attributes of the emitted top-level
elements form the contiguous run 1, 2, ..., n in output order: the shared
counter starts at 1, is advanced exactly when an element is appended, and
each pass continues from the previous pass's final counter. The z-order
is assigned by this traversal; no source attribute feeds it. -/
theorem C2_theorem (cw ch : ℤ) (root : Option (List SrcNode)) :
    (extractSlideElements cw ch root).map ElementOut.zOrder
      = List.range' 1 (extractSlideElements cw ch root).length := by
  cases root with
  | none => simp [extractSlideElements]
  | some tree =>
    have hsp : ∀ (s : SpData) (z : Nat) (e : ElementOut),
        extractShapeElement cw ch s z = some e → e.zOrder = z := by
      intro s z e h
      cases hnv : s.nv with
      | none => simp [extractShapeElement, hnv] at h
      | some nv =>
        simp only [extractShapeElement, hnv, Option.some.injEq] at h
        rw [← h]
        rfl
    have hpic : ∀ (d : PicData) (z : Nat) (e : ElementOut),
        extractPictureElement cw ch d z = some e → e.zOrder = z := by
      intro d z e h
      cases hnv : d.nv with
      | none => simp [extractPictureElement, hnv] at h
      | some c =>
        simp only [extractPictureElement, hnv, Option.some.injEq] at h
        rw [← h]
        rfl
    have hgf : ∀ (f : FrameContent × Option Xfrm) (z : Nat) (e : ElementOut),
        (some (extractGraphicFrame cw ch f z) : Option ElementOut) = some e →
        e.zOrder = z := by
      intro f z e h
      simp only [Option.some.injEq] at h
      rw [← h]
      obtain ⟨fc, fx⟩ := f
      cases fc <;> rfl
    have hgrp : ∀ (g : Option Xfrm × List SrcNode) (z : Nat) (e : ElementOut),
        (some (extractGroupElement cw ch g z) : Option ElementOut) = some e →
        e.zOrder = z := by
      intro g z e h
      simp only [Option.some.injEq] at h
      rw [← h]
      rfl
    simp only [extractSlideElements, List.map_append, List.length_append]
    rw [runPass_zOrders _ hsp, runPass_zOrders _ hpic,
      runPass_zOrders _ hgf, runPass_zOrders _ hgrp,
      runPass_counter, runPass_counter, runPass_counter]
    generalize (runPass (listSps tree) (extractShapeElement cw ch) 1).1.length = a
    generalize (runPass (listPics tree) (extractPictureElement cw ch) (1 + a)).1.length = b
    generalize (runPass (listFrames tree)
      (fun f z => some (extractGraphicFrame cw ch f z)) (1 + a + b)).1.length = c
    generalize (runPass (listGrps tree)
      (fun g z => some (extractGroupElement cw ch g z)) (1 + a + b + c)).1.length = d
    rw [range'_glue 1 a b, show 1 + a + b = 1 + (a + b) by omega,
      range'_glue 1 (a + b) c, show 1 + (a + b) + c = 1 + (a + b + c) by omega,
      range'_glue 1 (a + b + c) d]

/-- C1, counterexample. A shapes pass over a shape lacking `p:nvSpPr`
(dropped) followed by a valid shape: under the claim the valid shape
would carry z-order 2 (the dropped child consuming slot 1); the code
gives it z-order 1, because `z_order += 1` sits inside the
`if elem is not None` branch. -/
theorem C1_counterexample :
    (extractSlideElements 9144000 6858000 (some
      [SrcNode.sp { nv := none, xfrm := none },
       SrcNode.sp { nv := some { cNvPr := none, ph := none }, xfrm := none }])).map
      ElementOut.zOrder = [1] := by rfl

/-- C1, amended. In every extraction pass the shared z-order counter is
incremented only when the per-child extractor returns an element: a
dropped child leaves the pass's output and counter exactly as if the
child were absent, and after any pass the counter equals its starting
value plus the number of elements emitted. -/
theorem C1_theorem {α : Type} (f : α → Nat → Option ElementOut) :
    (∀ (items : List α) (z : Nat),
      (runPass items f z).2 = z + (runPass items f z).1.length) ∧
    (∀ (a : α) (rest : List α) (z : Nat), f a z = none →
      runPass (a :: rest) f z = runPass rest f z) := by
  refine ⟨runPass_counter f, ?_⟩
  intro a rest z h
  simp [runPass, h]

/-- C1, witness: the amended theorem applied to the shapes pass at a
concrete dropped shape. -/
theorem C1_witness :
    runPass [({ nv := none, xfrm := none } : SpData)]
        (extractShapeElement 9144000 6858000) 1
      = runPass [] (extractShapeElement 9144000 6858000) 1 :=
  (C1_theorem (extractShapeElement 9144000 6858000)).2
    { nv := none, xfrm := none } [] 1 rfl

/-- The pass a given output element type can only originate from:
shapes, then pictures, then graphic frames (chart/table/graphic), then
groups. -/
def passRank : ElemType → Nat
  | .textbox => 0
  | .picture => 1
  | .chart => 2
  | .table => 2
  | .graphic => 2
  | .group => 3

/-- C3, counterexample. A shape tree whose single top-level child is a
group containing one shape: the descendant search of the shapes pass
finds the nested shape and emits it at the top level (z-order 1) before
the group (z-order 2), so the element sequence is not restricted to
top-level children. -/
theorem C3_counterexample :
    (extractSlideElements 9144000 6858000 (some
      [SrcNode.grp none
        [SrcNode.sp { nv := some { cNvPr := none, ph := none }, xfrm := none }]])).map
      ElementOut.etype = [ElemType.textbox, ElemType.group] := by rfl

theorem runPass_all_some_length {α : Type} (f : α → Nat → ElementOut) :
    ∀ (items : List α) (z : Nat),
    (runPass items (fun a z => some (f a z)) z).1.length = items.length := by
  intro items z
  rw [runPass_length (fun a z => some (f a z)) (fun _ => true) (fun _ _ => rfl)]
  simp [List.countP_eq_length]

theorem countP_of_all {p : ElementOut → Bool} :
    ∀ (l : List ElementOut), (∀ e ∈ l, p e = true) → l.countP p = l.length := by
  intro l h
  exact List.countP_eq_length.mpr h

theorem countP_of_none {p : ElementOut → Bool} :
    ∀ (l : List ElementOut), (∀ e ∈ l, p e = false) → l.countP p = 0 := by
  intro l h
  induction l with
  | nil => simp
  | cons e es ih =>
    rw [List.countP_cons]
    rw [h e (by simp)]
    simp only [ite_false, Bool.false_eq_true, if_false]
    exact ih (fun x hx => h x (List.mem_cons_of_mem e hx))

/-- C3, amended. `extract_slide_elements` runs four ordered passes —
descendant shapes, then descendant pictures, then descendant graphic
frames, then descendant groups of the shape tree (each pass in document
order, all sharing one z-order counter), so the emitted sequence is
ordered by pass (all textboxes, then pictures, then chart/table/graphic
frames, then groups); but each pass uses a descendant search, so elements
nested inside groups are emitted at the top level too: the pass output
sizes are the numbers of matching descendants, not of top-level children. -/
theorem C3_theorem (cw ch : ℤ) (tree : List SrcNode) :
    List.Pairwise (fun a b => passRank a.etype ≤ passRank b.etype)
      (extractSlideElements cw ch (some tree)) ∧
    (extractSlideElements cw ch (some tree)).countP
        (fun e => e.etype = ElemType.textbox)
      = (listSps tree).countP (fun s => s.nv.isSome) ∧
    (extractSlideElements cw ch (some tree)).countP
        (fun e => e.etype = ElemType.picture)
      = (listPics tree).countP (fun d => d.nv.isSome) ∧
    (extractSlideElements cw ch (some tree)).countP
        (fun e => passRank e.etype = 2)
      = (listFrames tree).length ∧
    (extractSlideElements cw ch (some tree)).countP
        (fun e => e.etype = ElemType.group)
      = (listGrps tree).length := by
  have hsp : ∀ (s : SpData) (z : Nat) (e : ElementOut),
      extractShapeElement cw ch s z = some e → e.etype = ElemType.textbox := by
    intro s z e h
    cases hnv : s.nv with
    | none => simp [extractShapeElement, hnv] at h
    | some nv =>
      simp only [extractShapeElement, hnv, Option.some.injEq] at h
      rw [← h]
      rfl
  have hpic : ∀ (d : PicData) (z : Nat) (e : ElementOut),
      extractPictureElement cw ch d z = some e → e.etype = ElemType.picture := by
    intro d z e h
    cases hnv : d.nv with
    | none => simp [extractPictureElement, hnv] at h
    | some c =>
      simp only [extractPictureElement, hnv, Option.some.injEq] at h
      rw [← h]
      rfl
  have hgf : ∀ (f : FrameContent × Option Xfrm) (z : Nat) (e : ElementOut),
      (some (extractGraphicFrame cw ch f z) : Option ElementOut) = some e →
      passRank e.etype = 2 := by
    intro f z e h
    simp only [Option.some.injEq] at h
    rw [← h]
    obtain ⟨fc, fx⟩ := f
    cases fc <;> rfl
  have hgrp : ∀ (g : Option Xfrm × List SrcNode) (z : Nat) (e : ElementOut),
      (some (extractGroupElement cw ch g z) : Option ElementOut) = some e →
      e.etype = ElemType.group := by
    intro g z e h
    simp only [Option.some.injEq] at h
    rw [← h]
    rfl
  have hspIsSome : ∀ (s : SpData) (z : Nat),
      (extractShapeElement cw ch s z).isSome = s.nv.isSome := by
    intro s z
    cases hnv : s.nv <;> simp [extractShapeElement, hnv]
  have hpicIsSome : ∀ (d : PicData) (z : Nat),
      (extractPictureElement cw ch d z).isSome = d.nv.isSome := by
    intro d z
    cases hnv : d.nv <;> simp [extractPictureElement, hnv]
  -- facts about the four pass outputs
  have m1 := runPass_mem (extractShapeElement cw ch) _ hsp (listSps tree)
  have m2 := runPass_mem (extractPictureElement cw ch) _ hpic (listPics tree)
  have m3 := runPass_mem (fun f z => some (extractGraphicFrame cw ch f z)) _ hgf
    (listFrames tree)
  have m4 := runPass_mem (fun g z => some (extractGroupElement cw ch g z)) _ hgrp
    (listGrps tree)
  have r1 : ∀ z, ∀ e ∈ (runPass (listSps tree) (extractShapeElement cw ch) z).1,
      passRank e.etype = 0 := by
    intro z e he
    rw [m1 z e he]
    rfl
  have r2 : ∀ z, ∀ e ∈ (runPass (listPics tree) (extractPictureElement cw ch) z).1,
      passRank e.etype = 1 := by
    intro z e he
    rw [m2 z e he]
    rfl
  have r3 : ∀ z, ∀ e ∈ (runPass (listFrames tree)
      (fun f z => some (extractGraphicFrame cw ch f z)) z).1,
      passRank e.etype = 2 := m3
  have r4 : ∀ z, ∀ e ∈ (runPass (listGrps tree)
      (fun g z => some (extractGroupElement cw ch g z)) z).1,
      passRank e.etype = 3 := by
    intro z e he
    rw [m4 z e he]
    rfl
  simp only [extractSlideElements]
  refine ⟨?_, ?_, ?_, ?_, ?_⟩
  · -- pass-rank monotonicity across the concatenation
    refine List.pairwise_append.mpr ⟨List.pairwise_append.mpr
      ⟨List.pairwise_append.mpr ⟨?_, ?_, ?_⟩, ?_, ?_⟩, ?_, ?_⟩
    · exact List.pairwise_of_forall_mem_list
        (fun a ha b hb => by rw [r1 _ a ha, r1 _ b hb])
    · exact List.pairwise_of_forall_mem_list
        (fun a ha b hb => by rw [r2 _ a ha, r2 _ b hb])
    · intro a ha b hb
      rw [r1 _ a ha, r2 _ b hb]
      omega
    · exact List.pairwise_of_forall_mem_list
        (fun a ha b hb => by rw [r3 _ a ha, r3 _ b hb])
    · intro a ha b hb
      rw [List.mem_append] at ha
      rw [r3 _ b hb]
      rcases ha with ha | ha
      · rw [r1 _ a ha]; omega
      · rw [r2 _ a ha]; omega
    · exact List.pairwise_of_forall_mem_list
        (fun a ha b hb => by rw [r4 _ a ha, r4 _ b hb])
    · intro a ha b hb
      rw [List.mem_append, List.mem_append] at ha
      rw [r4 _ b hb]
      rcases ha with (ha | ha) | ha
      · rw [r1 _ a ha]; omega
      · rw [r2 _ a ha]; omega
      · rw [r3 _ a ha]; omega
  · -- textbox count
    rw [List.countP_append, List.countP_append, List.countP_append]
    rw [countP_of_all _ (fun e he => by simp [m1 _ e he]),
      countP_of_none _ (fun e he => by simp [m2 _ e he]),
      countP_of_none _ (fun e he => by
        have := m3 _ e he
        simp only [decide_eq_false_iff_not]
        intro hx
        rw [hx] at this
        simp [passRank] at this),
      countP_of_none _ (fun e he => by simp [m4 _ e he])]
    rw [runPass_length (extractShapeElement cw ch) _ hspIsSome]
    omega
  · -- picture count
    rw [List.countP_append, List.countP_append, List.countP_append]
    rw [countP_of_none _ (fun e he => by simp [m1 _ e he]),
      countP_of_all _ (fun e he => by simp [m2 _ e he]),
      countP_of_none _ (fun e he => by
        have := m3 _ e he
        simp only [decide_eq_false_iff_not]
        intro hx
        rw [hx] at this
        simp [passRank] at this),
      countP_of_none _ (fun e he => by simp [m4 _ e he])]
    rw [runPass_length (extractPictureElement cw ch) _ hpicIsSome]
    omega
  · -- graphic-frame count (pass rank 2)
    rw [List.countP_append, List.countP_append, List.countP_append]
    rw [countP_of_none _ (fun e he => by simp [r1 _ e he]),
      countP_of_none _ (fun e he => by simp [r2 _ e he]),
      countP_of_all _ (fun e he => by simp [r3 _ e he]),
      countP_of_none _ (fun e he => by simp [r4 _ e he])]
    rw [runPass_all_some_length (extractGraphicFrame cw ch)]
    omega
  · -- group count
    rw [List.countP_append, List.countP_append, List.countP_append]
    rw [countP_of_none _ (fun e he => by simp [m1 _ e he]),
      countP_of_none _ (fun e he => by simp [m2 _ e he]),
      countP_of_none _ (fun e he => by
        have := m3 _ e he
        simp only [decide_eq_false_iff_not]
        intro hx
        rw [hx] at this
        simp [passRank] at this),
      countP_of_all _ (fun e he => by simp [m4 _ e he])]
    rw [runPass_all_some_length (extractGroupElement cw ch)]
    omega

/-- C4, counterexample. A package whose archive holds no parts at all
(so the fallback name-sorted scan finds zero slide parts): the extraction
loop runs zero times and the run completes, producing an output tree with
an empty `slides` section and `total_slides = 0` — no fatal error exists
on this path (`extractAllFeatures` is a total function). -/
theorem C4_counterexample :
    (extractAllFeatures { partNames := [], presentation := none }).slides = [] ∧
    (extractAllFeatures { partNames := [], presentation := none }).stats.totalSlides
      = 0 := by
  constructor <;>
    simp [extractAllFeatures, getSlideFiles, pySortStrings, List.mergeSort_nil]

/-- C4, amended. When the package yields zero discoverable slide parts
(whether via the relationship graph or the fallback scan), the run does
not abort: it completes with an empty `slides` section and zero counted
slides. -/
theorem C4_theorem (p : Package) (h : getSlideFiles p = []) :
    (extractAllFeatures p).slides = [] ∧
    (extractAllFeatures p).stats.totalSlides = 0 := by
  constructor <;> simp [extractAllFeatures, h]

/-- C4, witness: the amended theorem applied to the empty package. -/
theorem C4_witness :
    (extractAllFeatures { partNames := [], presentation := none }).slides = [] :=
  (C4_theorem { partNames := [], presentation := none }
    (by simp [getSlideFiles, pySortStrings, List.mergeSort_nil])).1

/-- C5, counterexample. A slide with a single element of positive area
whose centroid sits exactly at the normalized midpoint
(x = y = 1/4, width = height = 1/2, so x + w/2 = y + h/2 = 1/2): the
strict `< 0.5` tests send its whole mass to the right and bottom halves,
so both balances evaluate to 0, not the claimed 1.0. -/
theorem C5_counterexample :
    computeBalance [ElementOut.mk none ElemType.textbox 1
      (some { x := some (1/4), y := some (1/4), w := some (1/2), h := some (1/2),
              rot := 0, flipH := false, flipV := false }) none []] = (0, 0) := by
  simp only [computeBalance, listElems, nodeElems, List.append_nil, List.foldl,
    balanceStep, nodeFindGeom, pyAbs]
  norm_num

/-- C5, amended. Both layout balances equal 1 for a slide with zero
elements; but for a single element whose area-weighted centroid lies
exactly at the normalized midpoint the strict `< 0.5` split assigns the
whole mass to the right/bottom side, so when the element's area is
positive both balances equal 0 (only a zero-area centered element yields
1). -/
theorem C5_theorem :
    computeBalance [] = (1, 1) ∧
    ∀ (x y w h : ℚ), x + w / 2 = 1/2 → y + h / 2 = 1/2 → 0 < w * h →
      computeBalance [ElementOut.mk none ElemType.textbox 1
        (some { x := some x, y := some y, w := some w, h := some h,
                rot := 0, flipH := false, flipV := false }) none []] = (0, 0) := by
  constructor
  · simp only [computeBalance, listElems, List.foldl]
    norm_num
  · intro x y w h hx hy hwh
    have hcx : ¬(x + w / 2 < 1/2) := by rw [hx]; exact lt_irrefl _
    have hcy : ¬(y + h / 2 < 1/2) := by rw [hy]; exact lt_irrefl _
    have hne : w * h ≠ 0 := ne_of_gt hwh
    simp only [computeBalance, listElems, nodeElems, List.append_nil, List.foldl,
      balanceStep, nodeFindGeom, hcx, hcy, if_false, pyAbs]
    simp only [Prod.mk.injEq]
    constructor <;>
      · rw [if_pos (show (0:ℚ) < 0 + (0 + w * h) by linarith),
          if_pos (show (0:ℚ) - (0 + w * h) < 0 by linarith)]
        field_simp

/-- C5, witness: the amended theorem applied to the concrete centered
element with x = y = 1/4 and width = height = 1/2. -/
theorem C5_witness :
    computeBalance [ElementOut.mk none ElemType.textbox 1
      (some { x := some (1/4), y := some (1/4), w := some (1/2), h := some (1/2),
              rot := 0, flipH := false, flipV := false }) none []] = (0, 0) :=
  C5_theorem.2 (1/4) (1/4) (1/2) (1/2) (by norm_num) (by norm_num) (by norm_num)

/-- C6. `infer_slide_role` applies the ordered, first-match-wins rules:
slide index 1 is `title_slide`; otherwise at least one chart gives
`data_visualization`; otherwise at least one table gives `table_content`;
otherwise more than 2 pictures gives `image_gallery`; otherwise (and for
a slide without a shape tree) `content`. In particular a non-first slide
with one chart and three pictures is `data_visualization`. -/
theorem C6_theorem :
    (∀ (tree : Option (List SrcNode)), inferSlideRole tree 1 = "title_slide") ∧
    (∀ (cs : List SrcNode) (idx : Nat), idx ≠ 1 → 0 < countCharts cs →
      inferSlideRole (some cs) idx = "data_visualization") ∧
    (∀ (cs : List SrcNode) (idx : Nat), idx ≠ 1 → countCharts cs = 0 →
      0 < countTables cs → inferSlideRole (some cs) idx = "table_content") ∧
    (∀ (cs : List SrcNode) (idx : Nat), idx ≠ 1 → countCharts cs = 0 →
      countTables cs = 0 → 2 < countPicsIn cs →
      inferSlideRole (some cs) idx = "image_gallery") ∧
    (∀ (cs : List SrcNode) (idx : Nat), idx ≠ 1 → countCharts cs = 0 →
      countTables cs = 0 → countPicsIn cs ≤ 2 →
      inferSlideRole (some cs) idx = "content") ∧
    (∀ (idx : Nat), idx ≠ 1 → inferSlideRole none idx = "content") := by
  refine ⟨?_, ?_, ?_, ?_, ?_, ?_⟩
  · intro tree; simp [inferSlideRole]
  · intro cs idx h1 h2
    simp [inferSlideRole, h1, h2]
  · intro cs idx h1 h2 h3
    simp [inferSlideRole, h1, h2, h3]
  · intro cs idx h1 h2 h3 h4
    simp [inferSlideRole, h1, h2, h3, h4]
  · intro cs idx h1 h2 h3 h4
    simp [inferSlideRole, h1, h2, h3, Nat.not_lt.mpr h4]
  · intro idx h1
    simp [inferSlideRole, h1]

/-- C6, witness: a non-first slide with one chart graphic frame and three
pictures is classified `data_visualization` (chart beats image gallery). -/
theorem C6_witness :
    inferSlideRole (some
      [SrcNode.frame FrameContent.chart none,
       SrcNode.pic { nv := none, xfrm := none },
       SrcNode.pic { nv := none, xfrm := none },
       SrcNode.pic { nv := none, xfrm := none }]) 2 = "data_visualization" :=
  C6_theorem.2.1
    [SrcNode.frame FrameContent.chart none,
     SrcNode.pic { nv := none, xfrm := none },
     SrcNode.pic { nv := none, xfrm := none },
     SrcNode.pic { nv := none, xfrm := none }] 2 (by decide) (by decide)

theorem pyAbs_eq_abs (q : ℚ) : pyAbs q = |q| := by
  rw [pyAbs]
  rcases lt_or_le q 0 with h | h
  · rw [if_pos h, abs_of_neg h]
  · rw [if_neg (not_lt.mpr h), abs_of_nonneg h]

theorem round6_err (q : ℚ) : |round6 q - q| ≤ 1/2000000 := by
  have h1 := Int.floor_le (q * 1000000 + 1/2)
  have h2 := Int.lt_floor_add_one (q * 1000000 + 1/2)
  rw [round6, abs_le]
  constructor <;> nlinarith

/-- C7, counterexample. With canvas width 9144000 and raw offset 1 the
normalized coordinate rounds to 0.000000, so multiplying back by the
canvas yields 0 — a relative error of 100 %, far above 1e-4. The claimed
round-trip law fails for raw values that are small relative to the
canvas. -/
theorem C7_counterexample :
    ¬ pyAbs (normCoord 1 9144000 * 9144000 - 1) ≤ 1/10000 * pyAbs 1 := by
  have h0 : normCoord 1 9144000 = 0 := by
    rw [normCoord, round6]
    norm_num
  rw [h0]
  rw [pyAbs, pyAbs]
  norm_num

/-- C7, amended. Normalizing and multiplying back reproduces the raw
value within an absolute error of canvas/2·10⁻⁶ (half an ulp of the
six-decimal emission, scaled back); the claimed 1e-4 relative bound
therefore holds whenever the raw value is at least canvas/200, but not in
general (see the counterexample). -/
theorem C7_theorem (c x : ℤ) (hc : 0 < c) :
    pyAbs (normCoord x c * c - x) ≤ (c : ℚ) / 2000000 ∧
    ((c : ℚ) ≤ 200 * x → pyAbs (normCoord x c * c - x) ≤ 1/10000 * x) := by
  have hcQ : (0:ℚ) < (c:ℚ) := by exact_mod_cast hc
  have herr := round6_err ((x:ℚ) / (c:ℚ))
  have hx : ((x:ℚ) / (c:ℚ)) * c = x := by field_simp
  have hdiff : normCoord x c * (c:ℚ) - x
      = (round6 ((x:ℚ)/c) - (x:ℚ)/c) * c := by
    rw [normCoord, sub_mul, hx]
  have key : pyAbs (normCoord x c * c - x) ≤ (c : ℚ) / 2000000 := by
    rw [hdiff, pyAbs_eq_abs, abs_mul, abs_of_pos hcQ]
    calc |round6 ((x:ℚ)/c) - (x:ℚ)/c| * c ≤ (1/2000000) * c :=
          mul_le_mul_of_nonneg_right herr (le_of_lt hcQ)
      _ = c / 2000000 := by ring
  refine ⟨key, fun h200 => ?_⟩
  calc pyAbs (normCoord x c * c - x) ≤ (c : ℚ) / 2000000 := key
    _ ≤ (200 * x) / 2000000 := by linarith
    _ = 1/10000 * x := by ring

/-- C7, witness: the amended theorem at canvas 200 and raw value 1
(which satisfies the raw ≥ canvas/200 proviso). -/
theorem C7_witness : pyAbs (normCoord 1 200 * 200 - 1) ≤ 1/10000 := by
  have h := (C7_theorem 200 1 (by norm_num)).2 (by norm_num)
  push_cast at h
  linarith

theorem dedupFirstAux_subset :
    ∀ (l : List String) (seen : List String) (x : String),
    x ∈ dedupFirstAux seen l → x ∈ l := by
  intro l
  induction l with
  | nil => intro seen x hx; simp [dedupFirstAux] at hx
  | cons c rest ih =>
    intro seen x hx
    rw [dedupFirstAux] at hx
    by_cases hc : c ∈ seen
    · rw [if_pos hc] at hx
      exact List.mem_cons_of_mem c (ih seen x hx)
    · rw [if_neg hc] at hx
      rcases List.mem_cons.mp hx with rfl | hx
      · exact List.mem_cons_self x rest
      · exact List.mem_cons_of_mem c (ih (seen ++ [c]) x hx)

theorem mem_countPairs (cs : List String) (p : String × Nat)
    (hp : p ∈ countPairs cs) :
    p.1 ∈ schemeFiltered cs ∧ p.2 = (schemeFiltered cs).count p.1 := by
  rw [countPairs] at hp
  rcases List.mem_map.mp hp with ⟨k, hk, hkp⟩
  have hmem := dedupFirstAux_subset _ [] k hk
  rcases hkp with rfl
  exact ⟨hmem, rfl⟩

theorem mem_schemeFiltered (cs : List String) (x : String)
    (hx : x ∈ schemeFiltered cs) :
    ¬ x = "" ∧ pyStartsWith x "scheme:" = false := by
  rw [schemeFiltered] at hx
  have := (List.mem_filter.mp hx).2
  simp only [Bool.and_eq_true, Bool.not_eq_true', decide_eq_false_iff_not] at this
  exact ⟨this.1, this.2⟩

theorem countLe_trans :
    ∀ (a b c : String × Nat), (decide (b.2 ≤ a.2)) = true →
    (decide (c.2 ≤ b.2)) = true → (decide (c.2 ≤ a.2)) = true := by
  intro a b c h1 h2
  simp only [decide_eq_true_eq] at h1 h2 ⊢
  omega

theorem countLe_total :
    ∀ (a b : String × Nat), ((decide (b.2 ≤ a.2)) || (decide (a.2 ≤ b.2))) = true := by
  intro a b
  simp only [Bool.or_eq_true, decide_eq_true_eq]
  omega

/-- C8, counterexample. A document whose single color occurrence is the
indirect preset reference `preset:black`: the ranking filter excludes
only `scheme:`-prefixed values, so the preset reference is counted and
reported (with 100 % of the total) instead of being excluded as the
claim requires. -/
theorem C8_counterexample :
    topColors ["preset:black"] = [("preset:black", 1, 100)] := by
  have h1 : countPairs ["preset:black"] = [("preset:black", 1)] := by decide
  have h2 : schemeFiltered ["preset:black"] = ["preset:black"] := by decide
  simp only [topColors, sortedPairs, h1, h2]
  simp [List.mergeSort]

/-- C8, amended. The document-level top-color ranking excludes exactly
the empty and `scheme:`-prefixed color values — `preset:` references are
counted like literals — reports at most the 10 most frequent with
correct counts and percentages of the filtered total, sorted by count
descending; the sort is stable, so any descending-count selection of
tally entries (in particular any run of tied counts, which the tally
lists in first-encounter order) keeps its relative order in the ranking. -/
theorem C8_theorem (cs : List String) :
    (topColors cs).length ≤ 10 ∧
    (∀ p ∈ topColors cs,
      ¬ p.1 = "" ∧ pyStartsWith p.1 "scheme:" = false ∧
      p.2.1 = (schemeFiltered cs).count p.1 ∧
      p.2.2 = ((schemeFiltered cs).count p.1 : ℚ)
        / ((schemeFiltered cs).length : ℚ) * 100) ∧
    List.Pairwise (fun a b => b.2.1 ≤ a.2.1) (topColors cs) ∧
    (∀ (l : List (String × Nat)), l.Pairwise (fun a b => b.2 ≤ a.2) →
      l.Sublist (countPairs cs) → l.Sublist (sortedPairs cs)) := by
  refine ⟨?_, ?_, ?_, ?_⟩
  · rw [topColors]
    simp only [List.length_map, List.length_take]
    omega
  · intro p hp
    rw [topColors] at hp
    rcases List.mem_map.mp hp with ⟨q, hq, hqp⟩
    have hq2 : q ∈ sortedPairs cs := List.mem_of_mem_take hq
    have hq3 : q ∈ countPairs cs :=
      (List.mergeSort_perm (countPairs cs) _).mem_iff.mp hq2
    have hmem := mem_countPairs cs q hq3
    have hflt := mem_schemeFiltered cs q.1 hmem.1
    have hlen : 0 < (schemeFiltered cs).length :=
      List.length_pos.mpr (List.ne_nil_of_mem hmem.1)
    rcases hqp with rfl
    refine ⟨hflt.1, hflt.2, hmem.2, ?_⟩
    simp only [if_pos hlen, hmem.2]
  · rw [topColors]
    rw [List.pairwise_map]
    refine List.Pairwise.sublist (List.take_sublist 10 _) ?_
    have hs := List.sorted_mergeSort countLe_trans countLe_total (countPairs cs)
    exact hs.imp (fun h => by simpa using h)
  · intro l hpw hsub
    refine List.sublist_mergeSort countLe_trans countLe_total ?_ hsub
    exact hpw.imp (fun h => by simpa using h)

/-- C8, witness: two distinct colors with tied counts, in first-encounter
order, remain in that order in the sorted ranking. -/
theorem C8_witness :
    (countPairs ["A", "B"]).Sublist (sortedPairs ["A", "B"]) :=
  ( C8_theorem ["A", "B"]).2.2.2 (countPairs ["A", "B"]) (by decide)
    (List.Sublist.refl _)

/-- C9. `extract_color_value` follows the precedence literal sRGB value,
then scheme reference (`scheme:<name>`), then the system color's
last-rendered value, then preset name reference (`preset:<name>`), and
returns `None` exactly when none of these four value forms is present —
where the system form counts as present exactly when a non-empty
`lastClr` value exists (Python truthiness of the attribute), and absent
`val` attributes take the source defaults `FFFFFF`/`dk1`/`black`. -/
theorem C9_theorem (n : ColorNode) :
    (∀ v, n.srgb = some v →
      extractColorValue n = some ("#" ++ pyUpper (v.getD "FFFFFF"))) ∧
    (n.srgb = none → ∀ v, n.scheme = some v →
      extractColorValue n = some ("scheme:" ++ v.getD "dk1")) ∧
    (n.srgb = none → n.scheme = none → ∀ c, n.sys = some (some c) → ¬ c = "" →
      extractColorValue n = some ("#" ++ pyUpper c)) ∧
    (n.srgb = none → n.scheme = none →
      (∀ c, n.sys = some (some c) → c = "") → ∀ v, n.prst = some v →
      extractColorValue n = some ("preset:" ++ v.getD "black")) ∧
    (extractColorValue n = none ↔
      n.srgb = none ∧ n.scheme = none ∧
      (∀ c, n.sys = some (some c) → c = "") ∧ n.prst = none) := by
  obtain ⟨s1, s2, s3, s4⟩ := n
  refine ⟨?_, ?_, ?_, ?_, ?_⟩
  · intro v hv
    simp only at hv
    simp [extractColorValue, hv]
  · intro h1 v hv
    simp only at h1 hv
    simp [extractColorValue, h1, hv]
  · intro h1 h2 c hc hne
    simp only at h1 h2 hc
    simp [extractColorValue, h1, h2, hc, hne]
  · intro h1 h2 hsys v hv
    simp only at h1 h2 hv
    rcases s3 with _ | lc
    · simp [extractColorValue, h1, h2, prstBranch, hv]
    · rcases lc with _ | c
      · simp [extractColorValue, h1, h2, prstBranch, hv]
      · have hc : c = "" := hsys c (by simp)
        subst hc
        simp [extractColorValue, h1, h2, prstBranch, hv]
  · rcases s1 with _ | v1
    · rcases s2 with _ | v2
      · rcases s3 with _ | lc
        · rcases s4 with _ | v4 <;> simp [extractColorValue, prstBranch]
        · rcases lc with _ | c
          · rcases s4 with _ | v4 <;> simp [extractColorValue, prstBranch]
          · rcases s4 with _ | v4 <;>
              · by_cases hc : c = "" <;>
                  simp [extractColorValue, prstBranch, hc]
      · simp [extractColorValue]
    · simp [extractColorValue]

/-- C9, witness: a node carrying only a literal sRGB value `ff0000`
resolves, per the first precedence rule, to `#FF0000`. -/
theorem C9_witness :
    extractColorValue
      { srgb := some (some "ff0000"), scheme := none, sys := none, prst := none }
      = some "#FF0000" := by
  have h := (C9_theorem
    { srgb := some (some "ff0000"), scheme := none, sys := none, prst := none }).1
    (some "ff0000") rfl
  rw [h]
  rfl


theorem hexDigitVal_le (c : Char) (d : Nat) (h : hexDigitVal c = some d) :
    d ≤ 15 := by
  rw [hexDigitVal] at h
  rcases Option.map_eq_some'.mp h with ⟨p, hp, rfl⟩
  have hmem := List.mem_of_find?_eq_some hp
  have hall : ∀ q ∈ hexDigits, q.2 ≤ 15 := by decide
  exact hall p hmem

theorem parseDigitsAux_lt :
    ∀ (l : List Char) (u : Bool) (acc v : Nat),
    parseDigitsAux u l acc = some v → v < (acc + 1) * 16 ^ l.length := by
  intro l
  induction l with
  | nil =>
    intro u acc v h
    rw [parseDigitsAux] at h
    cases u
    · simp only [Bool.false_eq_true, if_false, Option.some.injEq] at h
      simp only [List.length_nil, pow_zero, Nat.mul_one]
      omega
    · simp at h
  | cons c rest ih =>
    intro u acc v h
    rw [parseDigitsAux] at h
    simp only [List.length_cons]
    by_cases hc : c = '_'
    · rw [if_pos hc] at h
      cases u
      · simp only [Bool.false_eq_true, if_false] at h
        have hv := ih true acc v h
        have hpow : (16:Nat) ^ rest.length ≤ 16 ^ (rest.length + 1) :=
          Nat.pow_le_pow_right (by norm_num) (Nat.le_succ _)
        calc v < (acc + 1) * 16 ^ rest.length := hv
          _ ≤ (acc + 1) * 16 ^ (rest.length + 1) := Nat.mul_le_mul_left _ hpow
      · simp at h
    · rw [if_neg hc] at h
      cases hd : hexDigitVal c with
      | none => rw [hd] at h; simp at h
      | some d =>
        rw [hd] at h
        have hdle := hexDigitVal_le c d hd
        have hv := ih false (acc * 16 + d) v h
        have hstep : acc * 16 + d + 1 ≤ (acc + 1) * 16 := by omega
        calc v < (acc * 16 + d + 1) * 16 ^ rest.length := hv
          _ ≤ ((acc + 1) * 16) * 16 ^ rest.length :=
            Nat.mul_le_mul_right _ hstep
          _ = (acc + 1) * 16 ^ (rest.length + 1) := by ring

theorem parseDigits_lt (l : List Char) (v : Nat) (h : parseDigits l = some v) :
    v < 16 ^ l.length := by
  cases l with
  | nil => simp [parseDigits] at h
  | cons c rest =>
    rw [parseDigits] at h
    cases hd : hexDigitVal c with
    | none => rw [hd] at h; simp at h
    | some d =>
      rw [hd] at h
      have hdle := hexDigitVal_le c d hd
      have hv := parseDigitsAux_lt rest false d v h
      simp only [List.length_cons]
      calc v < (d + 1) * 16 ^ rest.length := hv
        _ ≤ 16 * 16 ^ rest.length := Nat.mul_le_mul_right _ (by omega)
        _ = 16 ^ (rest.length + 1) := by ring

theorem parseHexBody_lt (l : List Char) (v : Nat) (h : parseHexBody l = some v) :
    v < 16 ^ l.length := by
  have hpow : ∀ m k : Nat, m ≤ k → (16:Nat) ^ m ≤ 16 ^ k :=
    fun m k hmk => Nat.pow_le_pow_right (by norm_num) hmk
  cases l with
  | nil => exact parseDigits_lt [] v h
  | cons c0 tail =>
    cases tail with
    | nil => exact parseDigits_lt [c0] v h
    | cons x rest =>
      cases rest with
      | nil =>
        rw [parseHexBody] at h
        by_cases hpre : (c0 = '0' && (x = 'x' || x = 'X')) = true
        · rw [if_pos hpre] at h
          simp [parseDigits] at h
        · rw [if_neg hpre] at h
          exact parseDigits_lt _ v h
      | cons c rest2 =>
        rw [parseHexBody] at h
        by_cases hpre : (c0 = '0' && (x = 'x' || x = 'X')) = true
        · rw [if_pos hpre] at h
          by_cases hc : c = '_'
          · rw [if_pos hc] at h
            have hv := parseDigits_lt rest2 v h
            refine lt_of_lt_of_le hv (hpow _ _ ?_)
            simp only [List.length_cons]
            omega
          · rw [if_neg hc] at h
            have hv := parseDigits_lt (c :: rest2) v h
            refine lt_of_lt_of_le hv (hpow _ _ ?_)
            simp only [List.length_cons]
            omega
        · rw [if_neg hpre] at h
          exact parseDigits_lt _ v h

theorem stripSpaces_length_le (l : List Char) :
    (stripSpaces l).length ≤ l.length := by
  rw [stripSpaces]
  rw [List.length_reverse]
  calc ((l.dropWhile isPySpace).reverse.dropWhile isPySpace).length
      ≤ (l.dropWhile isPySpace).reverse.length :=
        List.Sublist.length_le (List.dropWhile_sublist isPySpace)
    _ = (l.dropWhile isPySpace).length := List.length_reverse _
    _ ≤ l.length := List.Sublist.length_le (List.dropWhile_sublist isPySpace)

theorem pyIntHex_bound (s : String) (h2 : s.data.length ≤ 2) (n : Int)
    (h : pyIntHex s = some n) : -15 ≤ n ∧ n ≤ 255 := by
  have hlen : (stripSpaces s.data).length ≤ 2 :=
    le_trans (stripSpaces_length_le _) h2
  rw [pyIntHex] at h
  cases hm : stripSpaces s.data with
  | nil =>
    rw [hm, pyIntHexCore] at h
    simp [parseHexBody, parseDigits] at h
  | cons c rest =>
    rw [hm] at hlen
    simp only [List.length_cons] at hlen
    rw [hm, pyIntHexCore] at h
    by_cases hplus : c = '+'
    · rw [if_pos hplus] at h
      rcases Option.map_eq_some'.mp h with ⟨v, hv, rfl⟩
      have hb := parseHexBody_lt rest v hv
      have hle : (16:Nat) ^ rest.length ≤ 16 ^ 1 :=
        Nat.pow_le_pow_right (by norm_num) (by omega)
      have hv16 : v < 16 := by
        have := lt_of_lt_of_le hb hle
        simpa using this
      constructor <;> omega
    · rw [if_neg hplus] at h
      by_cases hminus : c = '-'
      · rw [if_pos hminus] at h
        rcases Option.map_eq_some'.mp h with ⟨v, hv, rfl⟩
        have hb := parseHexBody_lt rest v hv
        have hle : (16:Nat) ^ rest.length ≤ 16 ^ 1 :=
          Nat.pow_le_pow_right (by norm_num) (by omega)
        have hv16 : v < 16 := by
          have := lt_of_lt_of_le hb hle
          simpa using this
        constructor <;> omega
      · rw [if_neg hminus] at h
        rcases Option.map_eq_some'.mp h with ⟨v, hv, rfl⟩
        have hb := parseHexBody_lt (c :: rest) v hv
        have hle : (16:Nat) ^ (c :: rest).length ≤ 16 ^ 2 := by
          apply Nat.pow_le_pow_right (by norm_num)
          simp only [List.length_cons]
          omega
        have hv256 : v < 256 := by
          have := lt_of_lt_of_le hb hle
          simpa using this
        constructor <;> omega

theorem pySlice_string_length_le (t : String) (a b : Nat) :
    (String.mk (pySlice t a b)).data.length ≤ b - a := by
  show (pySlice t a b).length ≤ b - a
  rw [pySlice, List.length_take]
  omega

/-- C10, counterexample. `hex_to_rgb` is total, but Python `int(s, 16)`
accepts signed two-character slices and the parse reads only the first
six characters: for `-1-2-3` the result is `(-1, -2, -3)` — components
outside `[0, 255]` — and for the eight-digit `AABBCCDD` the result is
`(170, 187, 204)` instead of the claimed fallback `(128, 128, 128)`. -/
theorem C10_counterexample :
    hexToRgb "-1-2-3" = (-1, -2, -3) ∧
    hexToRgb "AABBCCDD" = (170, 187, 204) := by
  constructor <;> decide

/-- C10, amended. `hex_to_rgb` is total and never raises: every result
component is an integer in `[-15, 255]` (signed slices can be negative,
so `[0, 255]` does not hold — see the counterexample — but each
two-character slice parses to at most `255` and at least `-15`), and any
input whose `#`-stripped form carries a `scheme:` or `preset:` prefix
maps to the fallback `(128, 128, 128)`. -/
theorem C10_theorem (s : String) :
    (-15 ≤ (hexToRgb s).1 ∧ (hexToRgb s).1 ≤ 255) ∧
    (-15 ≤ (hexToRgb s).2.1 ∧ (hexToRgb s).2.1 ≤ 255) ∧
    (-15 ≤ (hexToRgb s).2.2 ∧ (hexToRgb s).2.2 ≤ 255) ∧
    ((pyStartsWith (pyStripHash s) "scheme:"
        || pyStartsWith (pyStripHash s) "preset:") = true →
      hexToRgb s = (128, 128, 128)) := by
  by_cases hsp : (pyStartsWith (pyStripHash s) "scheme:"
      || pyStartsWith (pyStripHash s) "preset:") = true
  · have hval : hexToRgb s = (128, 128, 128) := by
      rw [hexToRgb]
      simp only [hsp, if_true]
    rw [hval]
    refine ⟨⟨by norm_num, by norm_num⟩, ⟨by norm_num, by norm_num⟩,
      ⟨by norm_num, by norm_num⟩, fun _ => rfl⟩
  · have e1 := pySlice_string_length_le (pyStripHash s) 0 2
    have e2 := pySlice_string_length_le (pyStripHash s) 2 4
    have e3 := pySlice_string_length_le (pyStripHash s) 4 6
    rcases hr : pyIntHex (String.mk (pySlice (pyStripHash s) 0 2)) with _ | r
    · have hval : hexToRgb s = (128, 128, 128) := by
        rw [hexToRgb]
        simp only [hsp, if_false]
        rw [hr]
        rfl
      rw [hval]
      refine ⟨⟨by norm_num, by norm_num⟩, ⟨by norm_num, by norm_num⟩,
        ⟨by norm_num, by norm_num⟩, fun hc => absurd hc hsp⟩
    · rcases hg : pyIntHex (String.mk (pySlice (pyStripHash s) 2 4)) with _ | g
      · have hval : hexToRgb s = (128, 128, 128) := by
          rw [hexToRgb]
          simp only [hsp, if_false]
          rw [hr, hg]
          rfl
        rw [hval]
        refine ⟨⟨by norm_num, by norm_num⟩, ⟨by norm_num, by norm_num⟩,
          ⟨by norm_num, by norm_num⟩, fun hc => absurd hc hsp⟩
      · rcases hb : pyIntHex (String.mk (pySlice (pyStripHash s) 4 6)) with _ | b
        · have hval : hexToRgb s = (128, 128, 128) := by
            rw [hexToRgb]
            simp only [hsp, if_false]
            rw [hr, hg, hb]
            rfl
          rw [hval]
          refine ⟨⟨by norm_num, by norm_num⟩, ⟨by norm_num, by norm_num⟩,
            ⟨by norm_num, by norm_num⟩, fun hc => absurd hc hsp⟩
        · have hval : hexToRgb s = (r, g, b) := by
            rw [hexToRgb]
            simp only [hsp, if_false]
            rw [hr, hg, hb]
            rfl
          have br := pyIntHex_bound _ (le_trans e1 (by norm_num)) r hr
          have bg := pyIntHex_bound _ (le_trans e2 (by norm_num)) g hg
          have bb := pyIntHex_bound _ (le_trans e3 (by norm_num)) b hb
          rw [hval]
          exact ⟨⟨br.1, br.2⟩, ⟨bg.1, bg.2⟩, ⟨bb.1, bb.2⟩,
            fun hc => absurd hc hsp⟩

/-- C10, witness: the amended theorem's fallback clause at the concrete
scheme reference `scheme:bg1`. -/
theorem C10_witness : hexToRgb "scheme:bg1" = (128, 128, 128) :=
  ( C10_theorem "scheme:bg1").2.2.2 (by decide)
